import Mathlib

/-!
Shallow embedding of the GeminiDirector repository's query and audit-log
engines, with theorems checking the natural-language specification.

Sources embedded:
* `src/App.tsx` : `filteredDocs`, `displayDocs`, `addLog`, `clearLogs`
* `src/services/logger` (unnamed part) : `createLog`
* data-access layer (unnamed part) : `getDocById`
* `src/types` (unnamed part) : `ReferenceDoc`, `LaunchConfig`, `DocCategory`,
  `LogStatus`, `TrafficLog`

Modelling conventions:
* JavaScript strings are Lean `String`; `toLowerCase` is a per-character
  ASCII lowering (`lowerStr`), `includes` is `strIncludes`.
* `localeCompare` is locale-dependent, so sorting takes an injected
  comparator `cmp : String → String → Int`; `Array.prototype.sort` (stable
  since ES2019) is embedded as `List.insertionSort` on `cmp a b ≤ 0`.
* `crypto.randomUUID().slice(0, 8)` and `Date.now()` are ambient platform
  primitives; they are embedded as injected streams `LogEnv.ids` and
  `LogEnv.clock` indexed by the invocation counter.
* JavaScript object graphs (which may alias and contain cycles) are a heap
  `Heap` of cells addressed by `Nat`; `JSON.stringify` is the fuelled
  `serialize` (returning `none` when it throws on a cycle) and
  `JSON.parse` of the produced text allocates fresh cells via `deser`.
-/

/-- Enum `DocCategory` from `src/types`. -/
inductive DocCategory where
  | SETUP | CORE | MULTIMODAL | ADVANCED | SCHEMAS
deriving DecidableEq

/-- The string value carried by each `DocCategory` enum member. -/
def DocCategory.label : DocCategory → String
  | .SETUP => "SETUP"
  | .CORE => "CORE"
  | .MULTIMODAL => "MULTIMODAL"
  | .ADVANCED => "ADVANCED"
  | .SCHEMAS => "SCHEMAS"

/-- The `execution_pattern` union type of `LaunchConfig` from `src/types`. -/
inductive ExecutionPattern where
  | SYNC | ASYNC | STREAM | LONG_POLLING | SETUP
deriving DecidableEq

/-- Interface `LaunchConfig` from `src/types`. -/
structure LaunchConfig where
  entry_point : String
  required_params : List String
  optional_params : List String
  execution_pattern : ExecutionPattern
  output_type : String
deriving DecidableEq

/-- Interface `ReferenceDoc` from `src/types`. -/
structure ReferenceDoc where
  id : String
  category : DocCategory
  title : String
  description : String
  modelTarget : String
  explanation : String
  codeSnippet : String
  launch : LaunchConfig
deriving DecidableEq

/-- ASCII model of JavaScript `String.prototype.toLowerCase`. -/
def lowerStr (s : String) : String := ⟨s.data.map Char.toLower⟩

/-- Helper for `strIncludes` : does the first list lead the second? -/
def leadsWith : List Char → List Char → Bool
  | [], _ => true
  | _ :: _, [] => false
  | a :: as, b :: bs => a == b && leadsWith as bs

/-- Helper for `strIncludes` : does `needle` occur contiguously in `hay`? -/
def listHas (needle : List Char) : List Char → Bool
  | [] => needle.isEmpty
  | c :: rest => leadsWith needle (c :: rest) || listHas needle rest

/-- Model of JavaScript `hay.includes(needle)` on strings. -/
def strIncludes (hay needle : String) : Bool := listHas needle.data hay.data

/-- The match predicate inside `filteredDocs` (`src/App.tsx` lines 129-134):
`term = searchTerm.toLowerCase()` and the doc matches when `term` occurs in
its lowered title, category label, or id. -/
def docMatches (searchTerm : String) (doc : ReferenceDoc) : Bool :=
  let term := lowerStr searchTerm
  strIncludes (lowerStr doc.title) term ||
  strIncludes (lowerStr doc.category.label) term ||
  strIncludes (lowerStr doc.id) term

/-- `filteredDocs` from `src/App.tsx` lines 129-134, generalised over the
catalog list (the source applies it to the fixed `KNOWLEDGE_BASE`). -/
def filteredDocs (docs : List ReferenceDoc) (searchTerm : String) : List ReferenceDoc :=
  docs.filter (fun doc => docMatches searchTerm doc)

/-- `displayDocs` from `src/App.tsx` lines 136-138:
`sortAlpha ? [...filteredDocs].sort((a, b) => a.title.localeCompare(b.title)) : filteredDocs`.
`cmp` is the injected model of `localeCompare`; JavaScript's stable sort with
comparator `c` is `List.insertionSort` on the relation `c a b ≤ 0`. -/
def displayDocs (cmp : String → String → Int) (docs : List ReferenceDoc)
    (sortAlpha : Bool) : List ReferenceDoc :=
  if sortAlpha then
    List.insertionSort (fun a b => cmp a.title b.title ≤ 0) docs
  else docs

/-- `getDocById` from the data-access layer:
`docs.find(d => d.id === id)`. -/
def getDocById (docs : List ReferenceDoc) (id : String) : Option ReferenceDoc :=
  docs.find? (fun d => d.id == id)

/-- A store of JavaScript arrays of docs, addressed by allocation index; used
to express that `displayDocs` never mutates the array it is given. -/
abbrev DocStore := List (List ReferenceDoc)

/-- Read the array at address `a` (out-of-range reads return `[]`). -/
def storeGet (st : DocStore) (a : Nat) : List ReferenceDoc := st.getD a []

/-- Allocate a fresh array holding `xs`; models the spread `[...xs]`. -/
def storeAlloc (st : DocStore) (xs : List ReferenceDoc) : DocStore × Nat :=
  (st ++ [xs], st.length)

/-- In-place `Array.prototype.sort` with the title comparator at address `a`. -/
def sortInPlace (cmp : String → String → Int) (st : DocStore) (a : Nat) : DocStore :=
  st.set a (List.insertionSort (fun x y => cmp x.title y.title ≤ 0) (storeGet st a))

/-- Store-level rendering of `displayDocs`: in ALPHABETICAL mode the source
first copies the array (`[...filteredDocs]`) and sorts the copy in place;
in ORIGINAL mode it returns the very array it was given. Returns the
updated store and the address of the returned array. -/
def displayDocsS (cmp : String → String → Int) (st : DocStore) (a : Nat)
    (sortAlpha : Bool) : DocStore × Nat :=
  if sortAlpha then
    let alloc := storeAlloc st (storeGet st a)
    (sortInPlace cmp alloc.1 alloc.2, alloc.2)
  else (st, a)

/-- Primitive JavaScript values appearing in audit payloads. -/
inductive JSPrim where
  | null | undef | bool (b : Bool) | num (n : Int) | str (s : String)
deriving DecidableEq

/-- A JavaScript value slot: a primitive, or a reference to a heap cell. -/
inductive JSRef where
  | prim (p : JSPrim) | addr (a : Nat)
deriving DecidableEq

/-- A mutable heap cell: an array of slots or an object of named slots. -/
inductive HeapCell where
  | arrC (elems : List JSRef)
  | objC (fields : List (String × JSRef))
deriving DecidableEq

/-- The JavaScript object heap; the address of a cell is its index. -/
abbrev Heap := List HeapCell

/-- The slots stored directly inside a heap cell. -/
def cellRefs : HeapCell → List JSRef
  | .arrC es => es
  | .objC fs => fs.map (fun kv => kv.2)

/-- Mutate the cell at address `a` (models caller-side mutation of a
payload object after `createLog` returned). -/
def heapSet (h : Heap) (a : Nat) (c : HeapCell) : Heap := h.set a c

/-- A pure JSON document tree: the text produced by `JSON.stringify`,
abstracted from its concrete character syntax. -/
inductive JSTree where
  | nullT | boolT (b : Bool) | numT (n : Int) | strT (s : String)
  | arrT (elems : List JSTree) | objT (fields : List (String × JSTree))

/-- Elementwise serialization of array slots; `undefined` elements become
JSON `null`, and a thrown error (`none` from `s`) propagates. -/
def serElems (s : JSRef → Option (Option JSTree)) : List JSRef → Option (List JSTree)
  | [] => some []
  | r :: rs =>
    match s r, serElems s rs with
    | some t?, some ts => some ((t?.getD .nullT) :: ts)
    | _, _ => none

/-- Fieldwise serialization of object slots; fields whose value serializes
to `undefined` are omitted, and a thrown error propagates. -/
def serFields (s : JSRef → Option (Option JSTree)) :
    List (String × JSRef) → Option (List (String × JSTree))
  | [] => some []
  | kv :: rest =>
    match s kv.2, serFields s rest with
    | some t?, some ts =>
      some (match t? with | none => ts | some t => (kv.1, t) :: ts)
    | _, _ => none

/-- Model of `JSON.stringify`. Result `none` means the call threw (as the
real function does on a circular structure — rendered here as fuel
exhaustion, with the caller passing fuel `h.length + 1`, enough for any
acyclic reachable path); `some none` means it produced `undefined`;
`some (some t)` means it produced the JSON text `t`. -/
def serialize : Nat → Heap → JSRef → Option (Option JSTree)
  | 0, _, _ => none
  | _ + 1, _, .prim .null => some (some .nullT)
  | _ + 1, _, .prim .undef => some none
  | _ + 1, _, .prim (.bool b) => some (some (.boolT b))
  | _ + 1, _, .prim (.num n) => some (some (.numT n))
  | _ + 1, _, .prim (.str s) => some (some (.strT s))
  | f + 1, h, .addr a =>
    match h[a]? with
    | none => some none
    | some (.arrC es) =>
      (serElems (fun r => serialize f h r) es).map (fun ts => some (.arrT ts))
    | some (.objC fs) =>
      (serFields (fun r => serialize f h r) fs).map (fun ps => some (.objT ps))

mutual

/-- Model of `JSON.parse` applied to the JSON text `t`: allocates a fresh
object graph for the document and returns the root slot with the grown
heap. -/
def deser : JSTree → Heap → JSRef × Heap
  | .nullT, h => (.prim .null, h)
  | .boolT b, h => (.prim (.bool b), h)
  | .numT n, h => (.prim (.num n), h)
  | .strT s, h => (.prim (.str s), h)
  | .arrT ts, h =>
    let rs := deserL ts h
    (.addr rs.2.length, rs.2 ++ [.arrC rs.1])
  | .objT fs, h =>
    let rs := deserF fs h
    (.addr rs.2.length, rs.2 ++ [.objC rs.1])

/-- `deser` on a list of array elements, threading the heap. -/
def deserL : List JSTree → Heap → List JSRef × Heap
  | [], h => ([], h)
  | t :: ts, h =>
    let r := deser t h
    let rs := deserL ts r.2
    (r.1 :: rs.1, rs.2)

/-- `deser` on a list of object fields, threading the heap. -/
def deserF : List (String × JSTree) → Heap → List (String × JSRef) × Heap
  | [], h => ([], h)
  | kv :: rest, h =>
    let r := deser kv.2 h
    let rs := deserF rest r.2
    ((kv.1, r.1) :: rs.1, rs.2)

end

/-- Enum `LogStatus` from `src/types`. -/
inductive LogStatus where
  | ACCESS | COPY | INFO
deriving DecidableEq

/-- The `'UI' | 'DATABASE'` layer union from `src/types`. -/
inductive Layer where
  | UI | DATABASE
deriving DecidableEq

/-- Interface `TrafficLog` from `src/types`, polymorphic in how the optional
payload snapshot is rendered (`JSRef` into the engine heap in the full
model). `payload = none` is the stored `undefined`. -/
structure TrafficLog (π : Type) where
  traceId : String
  timestamp : Nat
  layer : Layer
  status : LogStatus
  message : String
  payload : Option π
deriving DecidableEq

/-- The ambient platform primitives used by `createLog`, injected as
streams indexed by the invocation counter: `ids k` models the `k`-th
`crypto.randomUUID().slice(0, 8)` draw and `clock k` the `k`-th
`Date.now()` reading. -/
structure LogEnv where
  ids : Nat → String
  clock : Nat → Nat

/-- JavaScript truthiness of a payload value, as tested by the source's
`payload ? ... : undefined`. -/
def truthy : JSRef → Bool
  | .prim .null => false
  | .prim .undef => false
  | .prim (.bool b) => b
  | .prim (.num n) => n != 0
  | .prim (.str s) => s != ""
  | .addr _ => true

/-- Model of `JSON.parse(JSON.stringify(v))` : `none` when either step
throws (circular structure, or a stringify result of `undefined`),
otherwise the freshly allocated copy and the grown heap. -/
def jsonDeepCopy (h : Heap) (v : JSRef) : Option (JSRef × Heap) :=
  match serialize (h.length + 1) h v with
  | none => none
  | some none => none
  | some (some t) => some (deser t h)

/-- `createLog` from `src/services/logger`. `k` is the invocation index
feeding the injected platform streams. Result `none` means the call threw
(the deep copy failed). -/
def createLog (env : LogEnv) (k : Nat) (layer : Layer) (status : LogStatus)
    (message : String) (payload : JSRef) (h : Heap) :
    Option (TrafficLog JSRef × Heap) :=
  if truthy payload then
    match jsonDeepCopy h payload with
    | none => none
    | some rh =>
      some ({ traceId := env.ids k, timestamp := env.clock k,
              layer := layer, status := status, message := message,
              payload := some rh.1 }, rh.2)
  else
    some ({ traceId := env.ids k, timestamp := env.clock k,
            layer := layer, status := status, message := message,
            payload := none }, h)

/-- `addLog` from `src/App.tsx` lines 141-143:
`setLogs(prev => [...prev, createLog(layer, status, message, payload)])`.
`none` means the updater threw and no record was appended. -/
def addLog (env : LogEnv) (k : Nat) (logs : List (TrafficLog JSRef))
    (layer : Layer) (status : LogStatus) (message : String) (payload : JSRef)
    (h : Heap) : Option (List (TrafficLog JSRef) × Heap) :=
  (createLog env k layer status message payload h).map
    (fun lh => (logs ++ [lh.1], lh.2))

/-- One reported action: the four arguments of an `addLog` call. -/
structure RecordCall where
  layer : Layer
  status : LogStatus
  message : String
  payload : JSRef

/-- Run a sequence of `addLog` calls against the logs state and heap,
advancing the platform-stream counter once per call. `none` if any call
threw. -/
def runLogs (env : LogEnv) : Nat → List RecordCall →
    List (TrafficLog JSRef) → Heap → Option (List (TrafficLog JSRef) × Heap)
  | _, [], logs, h => some (logs, h)
  | k, c :: cs, logs, h =>
    match addLog env k logs c.layer c.status c.message c.payload h with
    | none => none
    | some lh => runLogs env (k + 1) cs lh.1 lh.2

/-- `clearLogs` from `src/App.tsx` line 145: `setLogs([])`. -/
def clearLogs (_logs : List (TrafficLog JSRef)) : List (TrafficLog JSRef) := []

/-- `view()` : the logs state as rendered, oldest first
(`logs.map(...)` in `TerminalLog`). -/
def viewLogs (logs : List (TrafficLog JSRef)) : List (TrafficLog JSRef) := logs

/-- A slot that touches no heap address below `n` (a primitive, or a
reference into the fresh region at or above `n`). -/
def RefGE (n : Nat) : JSRef → Prop
  | .prim _ => True
  | .addr a => n ≤ a

/-- A cell all of whose slots stay at or above `n`. -/
def CellGE (n : Nat) (c : HeapCell) : Prop := ∀ r ∈ cellRefs c, RefGE n r

/-- The region of `h` at or above address `n` is closed: cells there only
reference addresses at or above `n`. -/
def HeapGE (n : Nat) (h : Heap) : Prop :=
  ∀ a c, n ≤ a → h[a]? = some c → CellGE n c

/-- Concrete platform streams used by the closed witness statements:
`ids k` is a run of `k` letters, `clock k` is `k`. -/
def envW : LogEnv := ⟨fun n => String.mk (List.replicate n 'a'), fun n => n⟩

/-- A heap holding the circular object `x = \x7b self: x \x7d`. -/
def heapCyc : Heap := [HeapCell.objC [("self", JSRef.addr 0)]]

/-- A heap holding the object `\x7b entries: 14 \x7d` (the one payload the
application actually logs, with `KNOWLEDGE_BASE.length = 14`). -/
def heapW : Heap := [HeapCell.objC [("entries", JSRef.prim (JSPrim.num 14))]]

/-- The JSON text of the `heapW` object. -/
def treeW : JSTree := JSTree.objT [("entries", JSTree.numT 14)]

/-- A small launch descriptor for witness docs. -/
def launchW : LaunchConfig := ⟨"e", [], [], ExecutionPattern.SYNC, "o"⟩

/-- A witness catalog entry. -/
def docW : ReferenceDoc :=
  ⟨"doc-1", DocCategory.CORE, "Client Initialization", "d", "ALL", "x", "c", launchW⟩

/-- A concrete consistent comparator standing in for `localeCompare` in
closed statements: compares by first code point, so it is a total preorder,
returns zero on identical strings, and is negative exactly where
`localeCompare` is on the inputs used below. -/
def cmpW : String → String → Int := fun a b =>
  ((a.data.headD ' ').toNat : Int) - ((b.data.headD ' ').toNat : Int)

/-- Witness entry with title `Same Title` and identifier `b-id`. -/
def docTB : ReferenceDoc :=
  ⟨"b-id", DocCategory.CORE, "Same Title", "d", "m", "x", "c", launchW⟩

/-- Witness entry with title `Same Title` and identifier `a-id`. -/
def docTA : ReferenceDoc :=
  ⟨"a-id", DocCategory.CORE, "Same Title", "d", "m", "x", "c", launchW⟩

/-- A concrete two-call session used in closed witness statements. -/
def callsW : List RecordCall :=
  [⟨Layer.UI, LogStatus.ACCESS, "m1", JSRef.prim JSPrim.undef⟩,
   ⟨Layer.DATABASE, LogStatus.COPY, "m2", JSRef.prim JSPrim.undef⟩]

/-- The record sequence the two-call session produces under `envW`. -/
def logsW : List (TrafficLog JSRef) :=
  [⟨"", 0, Layer.UI, LogStatus.ACCESS, "m1", none⟩,
   ⟨"a", 1, Layer.DATABASE, LogStatus.COPY, "m2", none⟩]

/-! ### Helper lemmas -/

theorem listHas_nil (l : List Char) : listHas [] l = true := by
  induction l with
  | nil => rfl
  | cons c t ih => simp [listHas, leadsWith]

theorem strIncludes_empty (hay : String) : strIncludes hay "" = true := by
  show listHas [] hay.data = true
  exact listHas_nil _

theorem docMatches_empty (d : ReferenceDoc) : docMatches "" d = true := by
  simp [docMatches, show lowerStr "" = "" from rfl, strIncludes_empty]

/-! ### Catalog query engine claims -/

/-- C6: `filter` with the empty term returns the full catalog unchanged,
and for every term the returned matches are a sublist of the catalog, so
they appear in the catalog's original relative order. -/
theorem c6_filter_empty_and_order (docs : List ReferenceDoc) (term : String) :
    filteredDocs docs "" = docs ∧ (filteredDocs docs term).Sublist docs := by
  constructor
  · exact List.filter_eq_self.mpr (fun d _ => docMatches_empty d)
  · exact List.filter_sublist docs

/-- C5: for a non-empty search term, every entry returned by the filter
passes the case-insensitive substring test on its title, category label,
or identifier, and every catalog entry not returned fails that test. -/
theorem c5_filter_characterises (docs : List ReferenceDoc) (term : String)
    (d : ReferenceDoc) (_hne : term ≠ "") :
    (d ∈ filteredDocs docs term → docMatches term d = true) ∧
    (d ∈ docs → d ∉ filteredDocs docs term → docMatches term d = false) := by
  constructor
  · intro hmem
    exact (List.mem_filter.mp hmem).2
  · intro hd hnot
    by_contra hne'
    exact hnot (List.mem_filter.mpr ⟨hd, by simpa using hne'⟩)

/-- Witness for C5 at a concrete catalog and term. -/
theorem c5_witness : docMatches "client" docW = true :=
  (c5_filter_characterises [docW] "client" docW (by decide)).1 (by decide)

/-- C7: clear followed by view yields the empty sequence, and clear is
idempotent — clearing an already-empty sequence leaves it empty. -/
theorem c7_clear_idempotent (logs : List (TrafficLog JSRef)) :
    viewLogs (clearLogs logs) = [] ∧
    clearLogs (clearLogs logs) = clearLogs logs ∧
    clearLogs ([] : List (TrafficLog JSRef)) = [] :=
  ⟨rfl, rfl, rfl⟩

/-- C8: lookup returns an entry exactly when one with the requested id
exists: a returned entry comes from the catalog and bears the id, and the
empty result occurs precisely when no entry matches (no exception — the
function is total and pure). -/
theorem c8_lookup (docs : List ReferenceDoc) (id : String) :
    (∀ e, getDocById docs id = some e → e ∈ docs ∧ e.id = id) ∧
    (getDocById docs id = none ↔ ∀ e ∈ docs, e.id ≠ id) := by
  constructor
  · intro e he
    exact ⟨List.mem_of_find?_eq_some he, by simpa using List.find?_some he⟩
  · rw [getDocById, List.find?_eq_none]
    constructor
    · intro h e he
      simpa using h e he
    · intro h e he
      simpa using h e he

/-- Witness for C8 at a concrete catalog and id. -/
theorem c8_witness : docW ∈ [docW] ∧ docW.id = "doc-1" :=
  (c8_lookup [docW] "doc-1").1 docW rfl

/-! ### Sorting claims -/

theorem cmpW_total (a b : String) : cmpW a b ≤ 0 ∨ cmpW b a ≤ 0 := by
  unfold cmpW
  omega

theorem cmpW_trans (a b c : String) (hab : cmpW a b ≤ 0) (hbc : cmpW b c ≤ 0) :
    cmpW a c ≤ 0 := by
  unfold cmpW at hab hbc ⊢
  omega

/-- C4 counterexample: `docTB` and `docTA` share the title `Same Title` but
have identifiers in the opposite order to their list positions. Sorting in
ALPHABETICAL mode keeps each input order unchanged (the comparator looks
only at titles and the sort is stable), so the relative order of entries
with identical titles is *not* determined by their identifiers. -/
theorem c4_counterexample :
    displayDocs cmpW [docTB, docTA] true = [docTB, docTA] ∧
    displayDocs cmpW [docTA, docTB] true = [docTA, docTB] ∧
    docTA.title = docTB.title ∧ docTA.id ≠ docTB.id ∧
    cmpW docTA.id docTB.id < 0 := by
  refine ⟨by decide, by decide, rfl, by decide, by decide⟩

/-- C4 (amended): ALPHABETICAL mode returns a permutation of its input,
sorted by title under the comparator (assumed a total preorder, which
`localeCompare` is), and entries with equal titles keep their original
relative order (the sort is stable) — ties are not broken by identifier. -/
theorem c4_sort_alphabetical (cmp : String → String → Int)
    (htot : ∀ a b, cmp a b ≤ 0 ∨ cmp b a ≤ 0)
    (htrans : ∀ a b c, cmp a b ≤ 0 → cmp b c ≤ 0 → cmp a c ≤ 0)
    (docs : List ReferenceDoc) :
    (displayDocs cmp docs true).Perm docs ∧
    (displayDocs cmp docs true).Pairwise (fun x y => cmp x.title y.title ≤ 0) ∧
    (∀ x y, cmp x.title y.title = 0 → [x, y].Sublist docs →
      [x, y].Sublist (displayDocs cmp docs true)) := by
  letI : IsTotal ReferenceDoc (fun x y => cmp x.title y.title ≤ 0) :=
    ⟨fun a b => htot a.title b.title⟩
  letI : IsTrans ReferenceDoc (fun x y => cmp x.title y.title ≤ 0) :=
    ⟨fun a b c => htrans a.title b.title c.title⟩
  refine ⟨?_, ?_, ?_⟩
  · simpa [displayDocs] using
      List.perm_insertionSort (fun x y : ReferenceDoc => cmp x.title y.title ≤ 0) docs
  · simpa [displayDocs, List.Sorted] using
      List.sorted_insertionSort (fun x y : ReferenceDoc => cmp x.title y.title ≤ 0) docs
  · intro x y hxy hsub
    have hgoal : [x, y].Sublist
        (List.insertionSort (fun u v : ReferenceDoc => cmp u.title v.title ≤ 0) docs) :=
      List.pair_sublist_insertionSort (le_of_eq hxy) hsub
    simpa [displayDocs] using hgoal

/-- Witness for C4's amended theorem at the concrete comparator and docs. -/
theorem c4_sort_alphabetical_witness :
    (displayDocs cmpW [docTB, docTA] true).Perm [docTB, docTA] ∧
    (displayDocs cmpW [docTB, docTA] true).Pairwise
      (fun x y => cmpW x.title y.title ≤ 0) ∧
    (∀ x y, cmpW x.title y.title = 0 → [x, y].Sublist [docTB, docTA] →
      [x, y].Sublist (displayDocs cmpW [docTB, docTA] true)) :=
  c4_sort_alphabetical cmpW cmpW_total cmpW_trans [docTB, docTA]

/-- C9: the sort never mutates the array it is given — the store still
holds the original list at the original address afterwards; ORIGINAL mode
returns the input array itself unchanged, ALPHABETICAL mode returns a
freshly allocated array; and the content of the returned array equals the
pure `displayDocs` of the input. -/
theorem c9_sort_no_mutation (cmp : String → String → Int) (st : DocStore)
    (a : Nat) (sortAlpha : Bool) (ha : a < st.length) :
    storeGet (displayDocsS cmp st a sortAlpha).1 a = storeGet st a ∧
    (sortAlpha = false → displayDocsS cmp st a sortAlpha = (st, a)) ∧
    (sortAlpha = true → (displayDocsS cmp st a sortAlpha).2 ≠ a) ∧
    storeGet (displayDocsS cmp st a sortAlpha).1 (displayDocsS cmp st a sortAlpha).2
      = displayDocs cmp (storeGet st a) sortAlpha := by
  cases sortAlpha with
  | false => simp [displayDocsS, displayDocs]
  | true =>
    have hne : st.length ≠ a := (Nat.ne_of_lt ha).symm
    have hcopy : storeGet (st ++ [storeGet st a]) st.length = storeGet st a := by
      simp [storeGet, List.getElem?_concat_length]
    refine ⟨?_, by simp, ?_, ?_⟩
    · simp only [displayDocsS, if_pos rfl, storeAlloc, sortInPlace]
      simp [storeGet, List.getElem?_set_ne hne, List.getElem?_append_left ha]
    · intro _
      simpa [displayDocsS, storeAlloc, sortInPlace] using hne
    · simp only [displayDocsS, if_pos rfl, storeAlloc, sortInPlace]
      rw [hcopy]
      simp [storeGet, List.getElem?_set_self, displayDocs,
        List.length_append, Nat.lt_succ_of_le (Nat.le_refl _)]

/-- Witness for C9 at a concrete store, address, and mode. -/
theorem c9_witness :
    storeGet (displayDocsS cmpW [[docTB, docTA]] 0 true).1 0
      = storeGet [[docTB, docTA]] 0 ∧
    (true = false → displayDocsS cmpW [[docTB, docTA]] 0 true = ([[docTB, docTA]], 0)) ∧
    (true = true → (displayDocsS cmpW [[docTB, docTA]] 0 true).2 ≠ 0) ∧
    storeGet (displayDocsS cmpW [[docTB, docTA]] 0 true).1
        (displayDocsS cmpW [[docTB, docTA]] 0 true).2
      = displayDocs cmpW (storeGet [[docTB, docTA]] 0) true :=
  c9_sort_no_mutation cmpW [[docTB, docTA]] 0 true (by decide)

/-! ### Audit log engine claims -/

theorem map_stream_range_succ {β : Type} (g : Nat → β) (k n : Nat) :
    (List.range (n + 1)).map (fun i => g (k + i))
      = g k :: (List.range n).map (fun i => g (k + 1 + i)) := by
  rw [List.range_succ_eq_map, List.map_cons, List.map_map]
  refine congrArg₂ _ (congrArg g (Nat.add_zero k)) ?_
  refine List.map_congr_left (fun i _ => ?_)
  show g (k + (i + 1)) = g (k + 1 + i)
  exact congrArg g (by omega)

theorem createLog_fields {env : LogEnv} {k : Nat} {layer : Layer}
    {status : LogStatus} {message : String} {payload : JSRef} {h : Heap}
    {log : TrafficLog JSRef} {h' : Heap}
    (hc : createLog env k layer status message payload h = some (log, h')) :
    log.traceId = env.ids k ∧ log.timestamp = env.clock k ∧
    log.layer = layer ∧ log.status = status ∧ log.message = message := by
  unfold createLog at hc
  split at hc
  · split at hc
    · exact absurd hc (by simp)
    · cases hc
      exact ⟨rfl, rfl, rfl, rfl, rfl⟩
  · cases hc
    exact ⟨rfl, rfl, rfl, rfl, rfl⟩

theorem runLogs_spec (env : LogEnv) :
    ∀ (cs : List RecordCall) (k : Nat) (acc : List (TrafficLog JSRef)) (h : Heap)
      (out : List (TrafficLog JSRef)) (hF : Heap),
      runLogs env k cs acc h = some (out, hF) →
      ∃ tail, out = acc ++ tail ∧ tail.length = cs.length ∧
        (∀ i, (tail.get? i).map (fun l => (l.layer, l.status, l.message))
            = (cs.get? i).map (fun c => (c.layer, c.status, c.message))) ∧
        tail.map (fun l => l.traceId)
          = (List.range cs.length).map (fun i => env.ids (k + i)) ∧
        tail.map (fun l => l.timestamp)
          = (List.range cs.length).map (fun i => env.clock (k + i)) := by
  intro cs
  induction cs with
  | nil =>
    intro k acc h out hF hrun
    simp only [runLogs, Option.some.injEq, Prod.mk.injEq] at hrun
    obtain ⟨h1, _⟩ := hrun
    subst h1
    exact ⟨[], by simp, rfl, by simp, by simp, by simp⟩
  | cons c cs ih =>
    intro k acc h out hF hrun
    rw [runLogs] at hrun
    cases haddLog : addLog env k acc c.layer c.status c.message c.payload h with
    | none => rw [haddLog] at hrun; exact absurd hrun (by simp)
    | some lh =>
      rw [haddLog] at hrun
      unfold addLog at haddLog
      cases hcreate : createLog env k c.layer c.status c.message c.payload h with
      | none => rw [hcreate] at haddLog; exact absurd haddLog (by simp)
      | some lh' =>
        rw [hcreate] at haddLog
        simp only [Option.map_some', Option.some.injEq] at haddLog
        subst haddLog
        obtain ⟨tail, hout, hlen, hinfo, hid, hts⟩ :=
          ih (k + 1) (acc ++ [lh'.1]) lh'.2 out hF hrun
        obtain ⟨f1, f2, f3, f4, f5⟩ := createLog_fields hcreate
        refine ⟨lh'.1 :: tail, ?_, ?_, ?_, ?_, ?_⟩
        · rw [hout]
          simp
        · simp [hlen]
        · intro i
          cases i with
          | zero => simp [f3, f4, f5]
          | succ n => simpa using hinfo n
        · simp only [List.map_cons, hid, f1, List.length_cons]
          exact (map_stream_range_succ env.ids k cs.length).symm
        · simp only [List.map_cons, hts, f2, List.length_cons]
          exact (map_stream_range_succ env.clock k cs.length).symm

/-- C1: a completed sequence of `record` calls yields exactly one stored
record per call, in call order — the i-th record carries the i-th call's
layer, status, and message; and under the platform assumptions the spec
itself makes (the session's `crypto.randomUUID` draws are distinct and
`Date.now` is non-decreasing), the trace identifiers are pairwise distinct
and the timestamps are non-decreasing in emission order. -/
theorem c1_record_view (env : LogEnv) (calls : List RecordCall) (h0 : Heap)
    (logs : List (TrafficLog JSRef)) (hF : Heap)
    (hids : (List.range calls.length).Pairwise (fun i j => env.ids i ≠ env.ids j))
    (hclock : ∀ i j, i ≤ j → env.clock i ≤ env.clock j)
    (hrun : runLogs env 0 calls [] h0 = some (logs, hF)) :
    (viewLogs logs).length = calls.length ∧
    (∀ i, ((viewLogs logs).get? i).map (fun l => (l.layer, l.status, l.message))
        = (calls.get? i).map (fun c => (c.layer, c.status, c.message))) ∧
    ((viewLogs logs).map (fun l => l.traceId)).Pairwise (fun x y => x ≠ y) ∧
    ((viewLogs logs).map (fun l => l.timestamp)).Pairwise (fun x y => x ≤ y) := by
  obtain ⟨tail, hout, hlen, hinfo, hid, hts⟩ :=
    runLogs_spec env calls 0 [] h0 logs hF hrun
  subst hout
  simp only [viewLogs, List.nil_append]
  refine ⟨hlen, hinfo, ?_, ?_⟩
  · rw [hid]
    refine List.pairwise_map.mpr ?_
    exact hids.imp (by intro i j hij; simpa using hij)
  · rw [hts]
    refine List.pairwise_map.mpr ?_
    exact (List.pairwise_lt_range calls.length).imp
      (fun hij => hclock _ _ (by omega))

/-- Witness for C1: a concrete completed two-call session. -/
theorem c1_witness :
    ((List.range callsW.length).Pairwise (fun i j => envW.ids i ≠ envW.ids j) ∧
      runLogs envW 0 callsW [] [] = some (logsW, [])) ∧
    ((viewLogs logsW).length = callsW.length ∧
      (∀ i, ((viewLogs logsW).get? i).map (fun l => (l.layer, l.status, l.message))
          = (callsW.get? i).map (fun c => (c.layer, c.status, c.message))) ∧
      ((viewLogs logsW).map (fun l => l.traceId)).Pairwise (fun x y => x ≠ y) ∧
      ((viewLogs logsW).map (fun l => l.timestamp)).Pairwise (fun x y => x ≤ y)) :=
  ⟨⟨by decide, rfl⟩,
    c1_record_view envW callsW [] logsW [] (by decide) (fun _ _ h => h) rfl⟩

/-- C10: a falsy payload value (such as 0, the empty string, false, or
null) is stored as an absent payload — the produced record equals the one
produced with no payload argument (`undefined`), and its stored payload is
`none`. -/
theorem c10_falsy_payload (env : LogEnv) (k : Nat) (layer : Layer)
    (status : LogStatus) (message : String) (h : Heap) (p : JSRef)
    (hfalsy : truthy p = false) :
    createLog env k layer status message p h
      = createLog env k layer status message (JSRef.prim JSPrim.undef) h ∧
    (createLog env k layer status message p h).map (fun lh => lh.1.payload)
      = some none := by
  have hundef : truthy (JSRef.prim JSPrim.undef) = false := rfl
  constructor
  · simp [createLog, hfalsy, hundef]
  · simp [createLog, hfalsy]

/-- Witness for C10 at the four falsy values the claim names. -/
theorem c10_witness :
    (truthy (JSRef.prim (JSPrim.num 0)) = false ∧
      createLog envW 0 Layer.UI LogStatus.INFO "m" (JSRef.prim (JSPrim.num 0)) []
        = createLog envW 0 Layer.UI LogStatus.INFO "m" (JSRef.prim JSPrim.undef) []) ∧
    (truthy (JSRef.prim (JSPrim.str "")) = false ∧
      createLog envW 0 Layer.UI LogStatus.INFO "m" (JSRef.prim (JSPrim.str "")) []
        = createLog envW 0 Layer.UI LogStatus.INFO "m" (JSRef.prim JSPrim.undef) []) ∧
    (truthy (JSRef.prim (JSPrim.bool false)) = false ∧
      createLog envW 0 Layer.UI LogStatus.INFO "m" (JSRef.prim (JSPrim.bool false)) []
        = createLog envW 0 Layer.UI LogStatus.INFO "m" (JSRef.prim JSPrim.undef) []) ∧
    (truthy (JSRef.prim JSPrim.null) = false ∧
      createLog envW 0 Layer.UI LogStatus.INFO "m" (JSRef.prim JSPrim.null) []
        = createLog envW 0 Layer.UI LogStatus.INFO "m" (JSRef.prim JSPrim.undef) []) :=
  ⟨⟨rfl, (c10_falsy_payload envW 0 Layer.UI LogStatus.INFO "m" []
      (JSRef.prim (JSPrim.num 0)) rfl).1⟩,
   ⟨rfl, (c10_falsy_payload envW 0 Layer.UI LogStatus.INFO "m" []
      (JSRef.prim (JSPrim.str "")) rfl).1⟩,
   ⟨rfl, (c10_falsy_payload envW 0 Layer.UI LogStatus.INFO "m" []
      (JSRef.prim (JSPrim.bool false)) rfl).1⟩,
   ⟨rfl, (c10_falsy_payload envW 0 Layer.UI LogStatus.INFO "m" []
      (JSRef.prim JSPrim.null) rfl).1⟩⟩

/-- C3: evaluation of the code at the failing input. On the circular
object `x = \x7b self: x \x7d`, `JSON.stringify` throws (`serialize` finds no
acyclic path), the exception escapes `createLog` inside the state updater,
and `addLog` appends nothing — the audit entry is lost entirely instead of
being emitted with the payload dropped and a capture-failure notation. -/
theorem c3_circular_payload_throws :
    serialize (heapCyc.length + 1) heapCyc (JSRef.addr 0) = none ∧
    createLog envW 0 Layer.UI LogStatus.INFO "msg" (JSRef.addr 0) heapCyc = none ∧
    addLog envW 0 [] Layer.UI LogStatus.INFO "msg" (JSRef.addr 0) heapCyc = none :=
  ⟨rfl, rfl, rfl⟩

/-! ### Deep-copy isolation machinery for C2 -/

theorem heapGE_empty_above (h : Heap) : HeapGE h.length h := by
  intro a c ha hget
  rw [List.getElem?_eq_none (by omega)] at hget
  cases hget

theorem heapGE_append_cell {n : Nat} {h : Heap} {c : HeapCell}
    (hh : HeapGE n h) (hc : CellGE n c) : HeapGE n (h ++ [c]) := by
  intro a c' ha hget
  by_cases hlt : a < h.length
  · exact hh a c' ha (by rwa [List.getElem?_append_left hlt] at hget)
  · rcases (by omega : a = h.length ∨ h.length < a) with rfl | hgt
    · rw [List.getElem?_concat_length] at hget
      cases hget
      exact hc
    · rw [List.getElem?_eq_none (by simp; omega)] at hget
      cases hget

mutual

theorem deser_ge (t : JSTree) (h : Heap) (n : Nat) (hn : n ≤ h.length)
    (hh : HeapGE n h) :
    (∃ d, (deser t h).2 = h ++ d) ∧ RefGE n (deser t h).1 ∧
      HeapGE n (deser t h).2 := by
  cases t with
  | nullT => exact ⟨⟨[], by simp [deser]⟩, trivial, hh⟩
  | boolT b => exact ⟨⟨[], by simp [deser]⟩, trivial, hh⟩
  | numT m => exact ⟨⟨[], by simp [deser]⟩, trivial, hh⟩
  | strT s => exact ⟨⟨[], by simp [deser]⟩, trivial, hh⟩
  | arrT ts =>
    obtain ⟨⟨d, hd⟩, hrefs, hheap⟩ := deserL_ge ts h n hn hh
    refine ⟨⟨d ++ [HeapCell.arrC (deserL ts h).1], ?_⟩, ?_, ?_⟩
    · show (deserL ts h).2 ++ [HeapCell.arrC (deserL ts h).1] = _
      rw [hd, List.append_assoc]
    · show n ≤ (deserL ts h).2.length
      rw [hd]
      simp
      omega
    · exact heapGE_append_cell hheap (fun r hr => hrefs r hr)
  | objT fs =>
    obtain ⟨⟨d, hd⟩, hrefs, hheap⟩ := deserF_ge fs h n hn hh
    refine ⟨⟨d ++ [HeapCell.objC (deserF fs h).1], ?_⟩, ?_, ?_⟩
    · show (deserF fs h).2 ++ [HeapCell.objC (deserF fs h).1] = _
      rw [hd, List.append_assoc]
    · show n ≤ (deserF fs h).2.length
      rw [hd]
      simp
      omega
    · refine heapGE_append_cell hheap (fun r hr => ?_)
      simp only [cellRefs, List.mem_map] at hr
      obtain ⟨kv, hkv, rfl⟩ := hr
      exact hrefs kv hkv

theorem deserL_ge (ts : List JSTree) (h : Heap) (n : Nat) (hn : n ≤ h.length)
    (hh : HeapGE n h) :
    (∃ d, (deserL ts h).2 = h ++ d) ∧ (∀ r ∈ (deserL ts h).1, RefGE n r) ∧
      HeapGE n (deserL ts h).2 := by
  cases ts with
  | nil => exact ⟨⟨[], by simp [deserL]⟩, by simp [deserL], hh⟩
  | cons t ts =>
    obtain ⟨⟨d1, hd1⟩, href1, hh1⟩ := deser_ge t h n hn hh
    have hn1 : n ≤ (deser t h).2.length := by rw [hd1]; simp; omega
    obtain ⟨⟨d2, hd2⟩, hrefs2, hh2⟩ := deserL_ge ts (deser t h).2 n hn1 hh1
    refine ⟨⟨d1 ++ d2, ?_⟩, ?_, hh2⟩
    · show (deserL ts (deser t h).2).2 = _
      rw [hd2, hd1, List.append_assoc]
    · intro r hr
      rcases List.mem_cons.mp hr with rfl | hr'
      · exact href1
      · exact hrefs2 r hr'

theorem deserF_ge (fs : List (String × JSTree)) (h : Heap) (n : Nat)
    (hn : n ≤ h.length) (hh : HeapGE n h) :
    (∃ d, (deserF fs h).2 = h ++ d) ∧ (∀ kv ∈ (deserF fs h).1, RefGE n kv.2) ∧
      HeapGE n (deserF fs h).2 := by
  cases fs with
  | nil => exact ⟨⟨[], by simp [deserF]⟩, by simp [deserF], hh⟩
  | cons kv fs =>
    obtain ⟨⟨d1, hd1⟩, href1, hh1⟩ := deser_ge kv.2 h n hn hh
    have hn1 : n ≤ (deser kv.2 h).2.length := by rw [hd1]; simp; omega
    obtain ⟨⟨d2, hd2⟩, hrefs2, hh2⟩ := deserF_ge fs (deser kv.2 h).2 n hn1 hh1
    refine ⟨⟨d1 ++ d2, ?_⟩, ?_, hh2⟩
    · show (deserF fs (deser kv.2 h).2).2 = _
      rw [hd2, hd1, List.append_assoc]
    · intro kv' hkv'
      rcases List.mem_cons.mp hkv' with rfl | hkv''
      · exact href1
      · exact hrefs2 kv' hkv''

end

theorem serElems_congr {s s' : JSRef → Option (Option JSTree)} :
    ∀ es : List JSRef, (∀ r ∈ es, s r = s' r) → serElems s es = serElems s' es := by
  intro es
  induction es with
  | nil => intro _; rfl
  | cons r rs ih =>
    intro hp
    simp only [serElems]
    rw [hp r (by simp), ih (fun x hx => hp x (by simp [hx]))]

theorem serFields_congr {s s' : JSRef → Option (Option JSTree)} :
    ∀ fs : List (String × JSRef), (∀ kv ∈ fs, s kv.2 = s' kv.2) →
      serFields s fs = serFields s' fs := by
  intro fs
  induction fs with
  | nil => intro _; rfl
  | cons kv rest ih =>
    intro hp
    simp only [serFields]
    rw [hp kv (by simp), ih (fun x hx => hp x (by simp [hx]))]

theorem serialize_agree (n : Nat) :
    ∀ (f : Nat) (h₁ h₂ : Heap) (v : JSRef), HeapGE n h₁ →
      (∀ b, n ≤ b → h₂[b]? = h₁[b]?) → RefGE n v →
      serialize f h₁ v = serialize f h₂ v := by
  intro f
  induction f with
  | zero => intro h₁ h₂ v _ _ _; rfl
  | succ f ih =>
    intro h₁ h₂ v hh hagree hv
    cases v with
    | prim p => cases p <;> rfl
    | addr a =>
      have ha : n ≤ a := hv
      simp only [serialize]
      rw [hagree a ha]
      cases hcell : h₁[a]? with
      | none => rfl
      | some cell =>
        cases cell with
        | arrC es =>
          have hch : ∀ r ∈ es, RefGE n r := hh a _ ha hcell
          exact congrArg (Option.map (fun ts => some (JSTree.arrT ts)))
            (serElems_congr es (fun r hr => ih h₁ h₂ r hh hagree (hch r hr)))
        | objC fs =>
          have hch : ∀ r ∈ cellRefs (HeapCell.objC fs), RefGE n r := hh a _ ha hcell
          exact congrArg (Option.map (fun ps => some (JSTree.objT ps)))
            (serFields_congr fs (fun kv hkv => ih h₁ h₂ kv.2 hh hagree
              (hch kv.2 (by simp only [cellRefs]; exact List.mem_map_of_mem _ hkv))))

/-- C2 counterexample: the payload value 0 is provided, yet the stored
record's payload is absent (`undefined`) rather than a deep copy of the
value — the source's `payload ? ... : undefined` guard tests truthiness,
not presence, so every falsy provided payload is dropped. -/
theorem c2_counterexample :
    createLog envW 0 Layer.UI LogStatus.INFO "m" (JSRef.prim (JSPrim.num 0)) []
      = some ({ traceId := envW.ids 0, timestamp := envW.clock 0,
                layer := Layer.UI, status := LogStatus.INFO, message := "m",
                payload := none }, []) := rfl

/-- C2 (amended): for a truthy payload that `JSON.stringify` serializes to
the text `t`, `createLog` succeeds and stores as the payload snapshot the
freshly parsed copy of `t`, allocated entirely in fresh cells; the
snapshot is structurally independent of the caller's object graph —
mutating any heap cell that existed before the call leaves the snapshot's
serialized readback unchanged at every fuel. When the payload argument is
absent (`undefined`), the stored payload is absent. -/
theorem c2_deep_copy_isolation (env : LogEnv) (k : Nat) (layer : Layer)
    (status : LogStatus) (message : String) (h : Heap) (p : JSRef) (t : JSTree)
    (htruthy : truthy p = true)
    (hser : serialize (h.length + 1) h p = some (some t)) :
    (createLog env k layer status message p h
      = some ({ traceId := env.ids k, timestamp := env.clock k, layer := layer,
                status := status, message := message,
                payload := some (deser t h).1 }, (deser t h).2)) ∧
    (∀ a c f, a < h.length →
      serialize f (heapSet (deser t h).2 a c) (deser t h).1
        = serialize f (deser t h).2 (deser t h).1) ∧
    (createLog env k layer status message (JSRef.prim JSPrim.undef) h).map
        (fun lh => lh.1.payload) = some none := by
  obtain ⟨⟨d, hd⟩, href, hheap⟩ := deser_ge t h h.length le_rfl (heapGE_empty_above h)
  refine ⟨?_, ?_, ?_⟩
  · simp [createLog, htruthy, jsonDeepCopy, hser]
  · intro a c f ha
    refine (serialize_agree h.length f (deser t h).2 (heapSet (deser t h).2 a c)
      (deser t h).1 hheap ?_ href).symm
    intro b hb
    exact List.getElem?_set_ne (by omega)
  · simp [createLog, show truthy (JSRef.prim JSPrim.undef) = false from rfl]

/-- Witness for C2's amended theorem: the application's own payload object
(`\x7b entries: 14 \x7d`) is deep-copied and isolated. -/
theorem c2_witness :
    truthy (JSRef.addr 0) = true ∧
    serialize (heapW.length + 1) heapW (JSRef.addr 0) = some (some treeW) ∧
    ((createLog envW 0 Layer.DATABASE LogStatus.INFO "Reference Database mounted."
        (JSRef.addr 0) heapW
      = some ({ traceId := envW.ids 0, timestamp := envW.clock 0,
                layer := Layer.DATABASE, status := LogStatus.INFO,
                message := "Reference Database mounted.",
                payload := some (deser treeW heapW).1 }, (deser treeW heapW).2)) ∧
    (∀ a c f, a < heapW.length →
      serialize f (heapSet (deser treeW heapW).2 a c) (deser treeW heapW).1
        = serialize f (deser treeW heapW).2 (deser treeW heapW).1) ∧
    (createLog envW 0 Layer.DATABASE LogStatus.INFO "Reference Database mounted."
        (JSRef.prim JSPrim.undef) heapW).map (fun lh => lh.1.payload) = some none) :=
  ⟨rfl, rfl, c2_deep_copy_isolation envW 0 Layer.DATABASE LogStatus.INFO
    "Reference Database mounted." heapW (JSRef.addr 0) treeW rfl rfl⟩
